import Mathlib

/-!
# Verification of the `simple-pubsub` dispatcher (src/app.ts)

Shallow embedding of the publish/subscribe core and its surrounding
subscribers, translated from `src/app.ts`.

Modelling decisions, all taken from the source:

* **Events** (`MachineSaleEvent`, `MachineRefillEvent`, `LowStockWarningEvent`,
  `StockLevelOkEvent`) become the closed inductive `EventT`; `type()` and
  `machineId()` become `EventT.etype` and `EventT.machineId`.  JS numbers used
  for quantities/stock are modelled as `Int` (the program only adds and
  subtracts, and stock may go negative).

* **The registry** `Map<string, Set<ISubscriber>>` becomes an insertion-ordered
  association list `List (String × List (Option S))`.  A JS `Set` is modelled
  as an insertion-ordered list of entries where `Set.prototype.delete` replaces
  the entry with an empty slot (`none`), exactly as in the ECMAScript
  specification; `Set.prototype.add` appends a fresh entry at the end when the
  element is not present.  `Set.prototype.forEach` visits the entries of the
  *live* set in order by position, skipping empty slots and also visiting
  entries appended during the iteration — this is `forEachSubs` below, which
  re-reads the current entry list of the kind at every step.

* **The event queue** `IEvent[]` with `push`/`shift` becomes a FIFO
  `List (Nat × EventT)`.  The `Nat` component is *ghost instrumentation*: a
  sequence number assigned at enqueue time (`nextSeq` counter), visible only in
  the delivery trace, never read by the dispatcher or by the handlers, used to
  state the FIFO ordering guarantee.

* **Subscribers** are an arbitrary type `S` of identities with decidable
  equality (reference identity in JS).  The body of a `handle` method is a
  function of the delivered event and a handler-owned world `W`, returning the
  updated world, the list of dispatcher calls made by the body (in order), and
  whether the body raised an exception (effects performed before the raise are
  kept, as in JS).

* **Exceptions and fuel**: a handler raise aborts the `forEach` and the drain
  loop and propagates (`RunResult.exn`); crucially, the source clears
  `isProcessing` only on the normal exit of `processEventQueue`, so the `exn`
  result keeps whatever flag value the state had.  Cascading publishes can grow
  the queue without bound, so the drain loop and the `forEach` loop take fuel
  (`RunResult.outOfFuel` when exhausted).  A nested `publish` made by a handler
  executes the source's `publish` body: it pushes the event and checks
  `isProcessing`; the branch that would start a second, reentrant drain is
  marked by the `RunResult.nestedDrain` result, and it is proved below that
  this branch is unreachable from a drain cycle (the drain flag is set for its
  whole duration).
-/

namespace PubSub

/-- The closed set of event variants of `src/app.ts` (`MachineSaleEvent`,
`MachineRefillEvent`, `LowStockWarningEvent`, `StockLevelOkEvent`). -/
inductive EventT : Type where
  | sale (sold : Int) (mid : String)
  | refill (qty : Int) (mid : String)
  | lowStockWarning (mid : String)
  | stockLevelOk (mid : String)
deriving DecidableEq

/-- `type()` of each event class. -/
def EventT.etype : EventT → String
  | .sale _ _ => "sale"
  | .refill _ _ => "refill"
  | .lowStockWarning _ => "lowStockWarning"
  | .stockLevelOk _ => "stockLevelOk"

/-- `machineId()` of each event class. -/
def EventT.machineId : EventT → String
  | .sale _ mid => mid
  | .refill _ mid => mid
  | .lowStockWarning mid => mid
  | .stockLevelOk mid => mid

/-- A report line printed by `StockWarningSubscriber`
(`Low stock warning for machine …` / `Stock level OK for machine …`). -/
inductive Report : Type where
  | warned (mid : String)
  | cleared (mid : String)
deriving DecidableEq

/-- `StockWarningSubscriber.handle`: the per-device `warningStates` map is a
total function defaulting to `false` (a missing JS `Map` key reads as
`undefined`, which is falsy).  Returns the updated map and the reports
emitted (zero or one). -/
def warnHandle (ws : String → Bool) (e : EventT) : (String → Bool) × List Report :=
  match e with
  | .lowStockWarning mid =>
    if ws mid then (ws, [])
    else (fun x => if x = mid then true else ws x, [Report.warned mid])
  | .stockLevelOk mid =>
    if ws mid then (fun x => if x = mid then false else ws x, [Report.cleared mid])
    else (ws, [])
  | _ => (ws, [])

/-- Feeding a list of events, in order, to `StockWarningSubscriber.handle`. -/
def runWarn : (String → Bool) → List EventT → (String → Bool) × List Report
  | ws, [] => (ws, [])
  | ws, e :: es =>
    let p := warnHandle ws e
    let q := runWarn p.1 es
    (q.1, p.2 ++ q.2)

/-- The reports concerning device `d`, encoded as Booleans
(`true` = warning report, `false` = cleared report). -/
def reportBools (d : String) : List Report → List Bool
  | [] => []
  | Report.warned m :: rs =>
    if m = d then true :: reportBools d rs else reportBools d rs
  | Report.cleared m :: rs =>
    if m = d then false :: reportBools d rs else reportBools d rs

/-- The `Machine` class: a named stock counter (initial stock level 10 is
supplied at the use sites, as in `new Machine(id)`). -/
structure Machine : Type where
  id : String
  stockLevel : Int
deriving DecidableEq

/-- `machines.find(m => m.id === event.machineId())`: first machine with the
given id. -/
def findMachine : List Machine → String → Option Machine
  | [], _ => none
  | m :: rest, mid => if m.id = mid then some m else findMachine rest mid

/-- In-place mutation of the found machine's `stockLevel` (the subscribers
share one `machines` array, so the update hits the first machine with the
id, the one `find` returned). -/
def updateStock : List Machine → String → Int → List Machine
  | [], _, _ => []
  | m :: rest, mid, lvl =>
    if m.id = mid then { m with stockLevel := lvl } :: rest
    else m :: updateStock rest mid lvl

/-- A dispatcher call made by a handler body, in program order:
`pubSubService.publish(e)`, `subscribe(t, h)` or `unsubscribe(t, h)`. -/
inductive Action (S : Type) : Type where
  | publish (e : EventT)
  | subscribe (t : String) (h : S)
  | unsubscribe (t : String) (h : S)
deriving DecidableEq

/-- The mutable state of `PubSubService`.

`subscribers` is the `Map<string, Set<ISubscriber>>` (insertion-ordered
association list of kinds; each kind holds the ECMAScript entry list of its
`Set`, where `none` is an empty slot left by `delete`).  `eventQueue` is the
pending FIFO queue; the `Nat` in each entry is the ghost enqueue sequence
number drawn from `nextSeq` (ghost counter), never read by the code. -/
structure PState (S : Type) : Type where
  subscribers : List (String × List (Option S))
  eventQueue : List (Nat × EventT)
  isProcessing : Bool
  nextSeq : Nat
deriving DecidableEq

/-- `Map.prototype.get` on an insertion-ordered association list. -/
def mapGet {α : Type} : List (String × α) → String → Option α
  | [], _ => none
  | (k', v) :: rest, k => if k' = k then some v else mapGet rest k

/-- `Map.prototype.set`: replace the value in place if the key is present,
otherwise append a new entry. -/
def mapSet {α : Type} : List (String × α) → String → α → List (String × α)
  | [], k, v => [(k, v)]
  | (k', v') :: rest, k, v =>
    if k' = k then (k, v) :: rest else (k', v') :: mapSet rest k v

/-- `Set.prototype.add`: append a fresh entry unless the value is present. -/
def setAdd {S : Type} [DecidableEq S] (l : List (Option S)) (h : S) : List (Option S) :=
  if some h ∈ l then l else l ++ [some h]

/-- `Set.prototype.delete`: replace the entry holding the value with an empty
slot (the ECMAScript algorithm); no-op if the value is absent. -/
def setDelete {S : Type} [DecidableEq S] : List (Option S) → S → List (Option S)
  | [], _ => []
  | some x :: rest, h =>
    if x = h then none :: rest else some x :: setDelete rest h
  | none :: rest, h => none :: setDelete rest h

/-- `PubSubService.subscribe`. -/
def PState.subscribe {S : Type} [DecidableEq S] (st : PState S) (t : String) (h : S) :
    PState S :=
  let m := if (mapGet st.subscribers t).isSome then st.subscribers
           else mapSet st.subscribers t []
  { st with subscribers := mapSet m t (setAdd ((mapGet m t).getD []) h) }

/-- `PubSubService.unsubscribe`. -/
def PState.unsubscribe {S : Type} [DecidableEq S] (st : PState S) (t : String) (h : S) :
    PState S :=
  match mapGet st.subscribers t with
  | none => st
  | some entries => { st with subscribers := mapSet st.subscribers t (setDelete entries h) }

/-- `this.eventQueue.push(event)`, stamping the ghost sequence number. -/
def PState.enqueue {S : Type} (st : PState S) (e : EventT) : PState S :=
  { st with eventQueue := st.eventQueue ++ [(st.nextSeq, e)], nextSeq := st.nextSeq + 1 }

/-- One entry of the (ghost) delivery trace: an event popped from the front of
the queue, or one subscriber's `handle` invoked with the popped event.  `sq`
is the event's ghost enqueue sequence number. -/
inductive TraceEnt (S : Type) : Type where
  | popped (sq : Nat) (e : EventT)
  | invoked (s : S) (sq : Nat) (e : EventT)
deriving DecidableEq

/-- Outcome of running dispatcher code: normal return, a handler exception
propagating out, fuel exhaustion of the model, or the (proved unreachable
from a drain) case of a nested `publish` finding `isProcessing = false` and
starting a reentrant drain.  Each outcome carries the state, the handler
world and the delivery trace produced. -/
inductive RunResult (S W : Type) : Type where
  | ok (st : PState S) (w : W) (tr : List (TraceEnt S))
  | exn (st : PState S) (w : W) (tr : List (TraceEnt S))
  | outOfFuel (st : PState S) (w : W) (tr : List (TraceEnt S))
  | nestedDrain (st : PState S) (w : W) (tr : List (TraceEnt S))
deriving DecidableEq

/-- Constructor tag of a `RunResult`. -/
inductive RKind : Type where
  | ok
  | exn
  | outOfFuel
  | nestedDrain
deriving DecidableEq

def RunResult.kind {S W : Type} : RunResult S W → RKind
  | .ok _ _ _ => .ok
  | .exn _ _ _ => .exn
  | .outOfFuel _ _ _ => .outOfFuel
  | .nestedDrain _ _ _ => .nestedDrain

def RunResult.state {S W : Type} : RunResult S W → PState S
  | .ok st _ _ => st
  | .exn st _ _ => st
  | .outOfFuel st _ _ => st
  | .nestedDrain st _ _ => st

def RunResult.world {S W : Type} : RunResult S W → W
  | .ok _ w _ => w
  | .exn _ w _ => w
  | .outOfFuel _ w _ => w
  | .nestedDrain _ w _ => w

def RunResult.trace {S W : Type} : RunResult S W → List (TraceEnt S)
  | .ok _ _ tr => tr
  | .exn _ _ tr => tr
  | .outOfFuel _ _ tr => tr
  | .nestedDrain _ _ tr => tr

/-- Prefix the trace of a result (used to record work already done before a
continuation). -/
def RunResult.prependTrace {S W : Type} (pre : List (TraceEnt S)) :
    RunResult S W → RunResult S W
  | .ok st w tr => .ok st w (pre ++ tr)
  | .exn st w tr => .exn st w (pre ++ tr)
  | .outOfFuel st w tr => .outOfFuel st w (pre ++ tr)
  | .nestedDrain st w tr => .nestedDrain st w (pre ++ tr)

/-- Sequencing: continue with `k` on normal return, propagate any abnormal
outcome (a raised exception aborts everything downstream, as in JS). -/
def RunResult.andThen {S W : Type} :
    RunResult S W → (PState S → W → RunResult S W) → RunResult S W
  | .ok st w tr, k => (k st w).prependTrace tr
  | .exn st w tr, _ => .exn st w tr
  | .outOfFuel st w tr, _ => .outOfFuel st w tr
  | .nestedDrain st w tr, _ => .nestedDrain st w tr

/-- The body of a subscriber's `handle` method: given the subscriber identity,
the delivered event and the handler-owned world, it returns the updated
world, the dispatcher calls it made (in order) and whether it raised. -/
def HandlerFun (S W : Type) : Type := S → EventT → W → W × List (Action S) × Bool

/-- Interpret the dispatcher calls of one handler body, in order.  A nested
`publish` runs the source's `publish`: push, then check `isProcessing`; if
the flag were clear it would start a reentrant drain — that case is marked
`nestedDrain` (proved unreachable from a drain cycle below). -/
def applyActions {S W : Type} [DecidableEq S] (st : PState S) (w : W) :
    List (Action S) → RunResult S W
  | [] => .ok st w []
  | Action.subscribe t h :: rest => applyActions (st.subscribe t h) w rest
  | Action.unsubscribe t h :: rest => applyActions (st.unsubscribe t h) w rest
  | Action.publish e :: rest =>
    let st1 := st.enqueue e
    if st1.isProcessing then applyActions st1 w rest
    else .nestedDrain st1 w []

/-- `eventSubscribers.forEach(subscriber => { subscriber.handle(event) })`:
position-based iteration over the live entry list of the event's kind
(re-read at every step, since handlers mutate it), skipping empty slots,
visiting entries appended during the iteration.  `sq`/`e` are the popped
event, `i` the current position.  A raise aborts the iteration. -/
def forEachSubs {S W : Type} [DecidableEq S] (handle : HandlerFun S W) :
    Nat → Nat → EventT → Nat → PState S → W → RunResult S W
  | 0, _, _, _, st, w => .outOfFuel st w []
  | fuel + 1, sq, e, i, st, w =>
    let entries := (mapGet st.subscribers e.etype).getD []
    if hlt : i < entries.length then
      match entries.get ⟨i, hlt⟩ with
      | none => forEachSubs handle fuel sq e (i + 1) st w
      | some s =>
        let hres := handle s e w
        ((applyActions st hres.1 hres.2.1).andThen (fun st2 w2 =>
          if hres.2.2 then .exn st2 w2 []
          else forEachSubs handle fuel sq e (i + 1) st2 w2)).prependTrace
          [TraceEnt.invoked s sq e]
    else .ok st w []

/-- The `while (this.eventQueue.length > 0)` loop of `processEventQueue`:
shift the front event, look up its kind's subscriber set, deliver if the
lookup hit, repeat; on empty queue clear `isProcessing` and return.  An
exception propagates without clearing the flag (the source has no
`try`/`finally`). -/
def drainLoop {S W : Type} [DecidableEq S] (handle : HandlerFun S W) :
    Nat → PState S → W → RunResult S W
  | 0, st, w => .outOfFuel st w []
  | fuel + 1, st, w =>
    match st.eventQueue with
    | [] => .ok { st with isProcessing := false } w []
    | (sq, e) :: rest =>
      let st1 := { st with eventQueue := rest }
      match mapGet st1.subscribers e.etype with
      | none => (drainLoop handle fuel st1 w).prependTrace [TraceEnt.popped sq e]
      | some _ =>
        ((forEachSubs handle fuel sq e 0 st1 w).andThen (fun st2 w2 =>
          drainLoop handle fuel st2 w2)).prependTrace [TraceEnt.popped sq e]

/-- `PubSubService.processEventQueue`: set `isProcessing` and run the loop. -/
def processEventQueue {S W : Type} [DecidableEq S] (handle : HandlerFun S W)
    (fuel : Nat) (st : PState S) (w : W) : RunResult S W :=
  drainLoop handle fuel { st with isProcessing := true } w

/-- `PubSubService.publish`: push the event; if no drain is active, drain
synchronously before returning, otherwise return at once. -/
def publish {S W : Type} [DecidableEq S] (handle : HandlerFun S W) (fuel : Nat)
    (st : PState S) (w : W) (e : EventT) : RunResult S W :=
  let st1 := st.enqueue e
  if st1.isProcessing then .ok st1 w []
  else processEventQueue handle fuel st1 w

/-- Ghost sequence number of a trace entry. -/
def seqOf {S : Type} : TraceEnt S → Nat
  | .popped sq _ => sq
  | .invoked _ sq _ => sq

/-- Sequence numbers of all trace entries, in trace order. -/
def traceSeqs {S : Type} (tr : List (TraceEnt S)) : List Nat := tr.map seqOf

/-- Sequence numbers of the popped (delivered) events only, in trace order. -/
def poppedSeqs {S : Type} : List (TraceEnt S) → List Nat
  | [] => []
  | TraceEnt.popped sq _ :: tr => sq :: poppedSeqs tr
  | TraceEnt.invoked _ _ _ :: tr => poppedSeqs tr

/-- Queue sanity invariant tying the ghost instrumentation together: queued
sequence numbers strictly increase from front to back and are all below the
`nextSeq` counter.  Holds for every state the dispatcher actually builds
(the initial queue is empty and `enqueue` stamps `nextSeq`). -/
def QInv {S : Type} (st : PState S) : Prop :=
  List.Pairwise (· < ·) (st.eventQueue.map Prod.fst) ∧
    ∀ p ∈ st.eventQueue, p.1 < st.nextSeq

/-- How a state evolves across handler activity inside one drain: the flag is
untouched, the counter grows, and the queue is only appended to, with fresh
(ghost) sequence numbers taken from the counter interval. -/
def Extends {S : Type} (st st' : PState S) : Prop :=
  st'.isProcessing = st.isProcessing ∧
    st.nextSeq ≤ st'.nextSeq ∧
    ∃ tl, st'.eventQueue = st.eventQueue ++ tl ∧
      (∀ p ∈ tl, st.nextSeq ≤ p.1 ∧ p.1 < st'.nextSeq) ∧
      List.Pairwise (· < ·) (tl.map Prod.fst)

/-- Live (non-tombstoned) subscriber entries of a kind, in visit order. -/
def entriesOf {S : Type} (st : PState S) (t : String) : List (Option S) :=
  (mapGet st.subscribers t).getD []

/-- The observable content of the registry for one kind: the ordered list of
live members (empty slots skipped), which is exactly what a delivery
iterates and what `add`/`delete` test. -/
def obsOf {S : Type} (st : PState S) (t : String) : List S :=
  (entriesOf st t).filterMap id

/-- Observational equivalence of dispatcher states: identical queue, flag and
counter, and for every kind the same ordered live membership (a kind holding
only empty slots is indistinguishable from an absent kind). -/
def RegObsEquiv {S : Type} (st st' : PState S) : Prop :=
  st.eventQueue = st'.eventQueue ∧ st.isProcessing = st'.isProcessing ∧
    st.nextSeq = st'.nextSeq ∧ ∀ t, obsOf st t = obsOf st' t

/-- The three subscriber objects wired by `normalCase`. -/
inductive AppSub : Type where
  | saleSub
  | refillSub
  | warnSub
deriving DecidableEq

/-- The world owned by the wired subscribers: the shared `machines` array, the
tracker's `warningStates` map and the reports it has printed. -/
structure AppWorld : Type where
  machines : List Machine
  warningStates : String → Bool
  reports : List Report

/-- `MachineSaleSubscriber.handle`, `MachineRefillSubscriber.handle` and
`StockWarningSubscriber.handle` from the source: the sale handler decrements
the found machine's stock and publishes a low-stock warning when the updated
stock is below 3; the refill handler increments and publishes a stock-ok
event when the updated stock is at least 3; an unknown machine id is a
silent no-op.  The tracker is `warnHandle`.  None of them raises. -/
def appHandle : HandlerFun AppSub AppWorld
  | AppSub.saleSub, EventT.sale sold mid, w =>
    (match findMachine w.machines mid with
     | none => (w, [], false)
     | some m =>
       let newLevel := m.stockLevel - sold
       let w' := { w with machines := updateStock w.machines mid newLevel }
       if newLevel < 3 then (w', [Action.publish (EventT.lowStockWarning mid)], false)
       else (w', [], false))
  | AppSub.saleSub, _, w => (w, [], false)
  | AppSub.refillSub, EventT.refill qty mid, w =>
    (match findMachine w.machines mid with
     | none => (w, [], false)
     | some m =>
       let newLevel := m.stockLevel + qty
       let w' := { w with machines := updateStock w.machines mid newLevel }
       if newLevel ≥ 3 then (w', [Action.publish (EventT.stockLevelOk mid)], false)
       else (w', [], false))
  | AppSub.refillSub, _, w => (w, [], false)
  | AppSub.warnSub, e, w =>
    let p := warnHandle w.warningStates e
    ({ w with warningStates := p.1, reports := w.reports ++ p.2 }, [], false)

/-- The empty dispatcher (`new PubSubService()`). -/
def emptyPS (S : Type) : PState S :=
  { subscribers := [], eventQueue := [], isProcessing := false, nextSeq := 0 }

/-- The subscriptions wired by `normalCase`. -/
def initPS : PState AppSub :=
  ((((emptyPS AppSub).subscribe "sale" AppSub.saleSub).subscribe "refill"
      AppSub.refillSub).subscribe "lowStockWarning" AppSub.warnSub).subscribe
    "stockLevelOk" AppSub.warnSub

/-- Three machines with initial stock 10 and a fresh tracker, as in
`normalCase`. -/
def initW : AppWorld :=
  { machines := [⟨"001", 10⟩, ⟨"002", 10⟩, ⟨"003", 10⟩],
    warningStates := fun _ => false, reports := [] }

/-- Subscriber identities used in the registry-mutation and
exception scenarios. -/
inductive CSub : Type where
  | a
  | b
  | c
deriving DecidableEq

/-- Handler set where subscriber `a`, while handling any event, unsubscribes
`b` from kind `"sale"`; the other subscribers do nothing. -/
def unsubHandle : HandlerFun CSub Unit
  | CSub.a, _, _ => ((), [Action.unsubscribe "sale" CSub.b], false)
  | _, _, _ => ((), [], false)

/-- Handler set where subscriber `a`, while handling any event, subscribes `c`
to kind `"sale"`; the other subscribers do nothing. -/
def addHandle : HandlerFun CSub Unit
  | CSub.a, _, _ => ((), [Action.subscribe "sale" CSub.c], false)
  | _, _, _ => ((), [], false)

/-- Handler set where every subscriber first publishes a refill event and then
raises. -/
def throwHandle : HandlerFun CSub Unit
  | _, _, _ => ((), [Action.publish (EventT.refill 1 "002")], true)

/-- Handler set where every subscriber does nothing. -/
def noopC : HandlerFun CSub Unit := fun _ _ _ => ((), [], false)

/-- No-op handler over the one-point subscriber type. -/
def noopU : HandlerFun Unit Unit := fun _ _ _ => ((), [], false)

/-- Idle dispatcher with `a` and `b` subscribed to `"sale"`, in that order. -/
def twoSubsPS : PState CSub :=
  { subscribers := [("sale", [some CSub.a, some CSub.b])], eventQueue := [],
    isProcessing := false, nextSeq := 0 }

/-- Idle dispatcher with only `a` subscribed to `"sale"`. -/
def oneSubPS : PState CSub :=
  { subscribers := [("sale", [some CSub.a])], eventQueue := [],
    isProcessing := false, nextSeq := 0 }

/-- Idle dispatcher with the one-point subscriber subscribed to `"sale"`. -/
def unitSubPS : PState Unit :=
  { subscribers := [("sale", [some ()])], eventQueue := [],
    isProcessing := false, nextSeq := 0 }

/-- First publish of the specified scenario: a sale of 8 for device `"001"`
on the freshly wired system. -/
def c8Run1 : RunResult AppSub AppWorld :=
  publish appHandle 20 initPS initW (EventT.sale 8 "001")

/-- Second publish of the specified scenario: a sale of 1 for device `"001"`. -/
def c8Run2 : RunResult AppSub AppWorld :=
  publish appHandle 20 c8Run1.state c8Run1.world (EventT.sale 1 "001")

/-- Third publish of the specified scenario: a refill of 5 for device
`"001"`. -/
def c8Run3 : RunResult AppSub AppWorld :=
  publish appHandle 20 c8Run2.state c8Run2.world (EventT.refill 5 "001")

/-!
## Lemmas about the registry primitives
-/

theorem mapGet_mapSet_self {α : Type} (m : List (String × α)) (k : String) (v : α) :
    mapGet (mapSet m k v) k = some v := by
  induction m with
  | nil => simp [mapSet, mapGet]
  | cons p rest ih =>
    cases p with
    | mk k' v' =>
      by_cases h : k' = k
      · simp [mapSet, mapGet, h]
      · simp [mapSet, mapGet, h, ih]

theorem mapGet_mapSet_ne {α : Type} (m : List (String × α)) {k k' : String}
    (hne : k' ≠ k) (v : α) : mapGet (mapSet m k v) k' = mapGet m k' := by
  have hne' : ¬ k = k' := fun hc => hne hc.symm
  induction m with
  | nil => simp [mapSet, mapGet, hne']
  | cons p rest ih =>
    cases p with
    | mk k0 v0 =>
      by_cases h : k0 = k
      · subst h
        simp [mapSet, mapGet, hne']
      · by_cases h' : k0 = k'
        · simp [mapSet, mapGet, h, h', hne, hne']
        · simp [mapSet, mapGet, h, h', ih]

theorem mapSet_mapSet {α : Type} (m : List (String × α)) (k : String) (v v' : α) :
    mapSet (mapSet m k v) k v' = mapSet m k v' := by
  induction m with
  | nil => simp [mapSet]
  | cons p rest ih =>
    cases p with
    | mk k0 v0 =>
      by_cases h : k0 = k
      · simp [mapSet, h]
      · simp [mapSet, h, ih]

theorem mapSet_self {α : Type} {m : List (String × α)} {k : String} {v : α}
    (hget : mapGet m k = some v) : mapSet m k v = m := by
  induction m with
  | nil => simp [mapGet] at hget
  | cons p rest ih =>
    cases p with
    | mk k0 v0 =>
      by_cases h : k0 = k
      · subst h
        simp only [mapGet, if_pos trivial] at hget
        simp at hget
        simp [mapSet, hget]
      · simp only [mapGet, if_neg h] at hget
        simp [mapSet, h, ih hget]

theorem mem_setAdd_self {S : Type} [DecidableEq S] (l : List (Option S)) (h : S) :
    some h ∈ setAdd l h := by
  unfold setAdd
  by_cases hm : some h ∈ l
  · simp [hm]
  · simp [hm]

theorem setAdd_of_mem {S : Type} [DecidableEq S] {l : List (Option S)} {h : S}
    (hm : some h ∈ l) : setAdd l h = l := by
  simp [setAdd, hm]

theorem setAdd_of_not_mem {S : Type} [DecidableEq S] {l : List (Option S)} {h : S}
    (hm : some h ∉ l) : setAdd l h = l ++ [some h] := by
  simp [setAdd, hm]

theorem setDelete_not_mem {S : Type} [DecidableEq S] :
    ∀ {l : List (Option S)} {h : S}, some h ∉ l → setDelete l h = l := by
  intro l
  induction l with
  | nil => intro h _; rfl
  | cons o rest ih =>
    intro h hm
    cases o with
    | none =>
      simp only [setDelete]
      rw [ih (fun hc => hm (List.mem_cons_of_mem _ hc))]
    | some x =>
      have hxh : ¬ x = h := by
        intro hc
        exact hm (by simp [hc])
      simp only [setDelete, if_neg hxh]
      rw [ih (fun hc => hm (List.mem_cons_of_mem _ hc))]

theorem setDelete_append_last {S : Type} [DecidableEq S] :
    ∀ {l : List (Option S)} {h : S}, some h ∉ l →
      setDelete (l ++ [some h]) h = l ++ [none] := by
  intro l
  induction l with
  | nil => intro h _; simp [setDelete]
  | cons o rest ih =>
    intro h hm
    cases o with
    | none =>
      have hrec := ih (fun hc => hm (List.mem_cons_of_mem _ hc))
      show none :: setDelete (rest ++ [some h]) h = none :: (rest ++ [none])
      rw [hrec]
    | some x =>
      have hxh : ¬ x = h := by
        intro hc
        exact hm (by simp [hc])
      have hrec := ih (fun hc => hm (List.mem_cons_of_mem _ hc))
      show (if x = h then none :: (rest ++ [some h]) else some x :: setDelete (rest ++ [some h]) h) =
        some x :: (rest ++ [none])
      rw [if_neg hxh, hrec]

/-- `subscribe` in normal form: update the kind's entry list with `setAdd`
(the creation of a fresh empty set for an absent kind is absorbed). -/
theorem subscribe_eq {S : Type} [DecidableEq S] (st : PState S) (t : String) (h : S) :
    st.subscribe t h =
      { st with subscribers := mapSet st.subscribers t (setAdd (entriesOf st t) h) } := by
  unfold PState.subscribe entriesOf
  cases hm : mapGet st.subscribers t with
  | none => simp [hm, mapGet_mapSet_self, mapSet_mapSet]
  | some l => simp [hm]

theorem unsubscribe_not_mem {S : Type} [DecidableEq S] {st : PState S} {t : String}
    {h : S} (hm : some h ∉ entriesOf st t) : st.unsubscribe t h = st := by
  unfold PState.unsubscribe
  cases hg : mapGet st.subscribers t with
  | none => rfl
  | some l =>
    have hl : some h ∉ l := by
      simpa [entriesOf, hg] using hm
    show { st with subscribers := mapSet st.subscribers t (setDelete l h) } = st
    rw [setDelete_not_mem hl, mapSet_self hg]

/-!
## Lemmas about the stock-warning tracker
-/

theorem reportBools_append (d : String) (r1 r2 : List Report) :
    reportBools d (r1 ++ r2) = reportBools d r1 ++ reportBools d r2 := by
  induction r1 with
  | nil => rfl
  | cons r rest ih =>
    cases r with
    | warned m =>
      by_cases h : m = d <;> simp [reportBools, h, ih]
    | cleared m =>
      by_cases h : m = d <;> simp [reportBools, h, ih]

theorem boolSplit (b : Bool) : b = false ∨ b = true := by
  cases b
  · exact Or.inl rfl
  · exact Or.inr rfl

theorem runWarn_cons (ws : String → Bool) (e : EventT) (es : List EventT) :
    runWarn ws (e :: es) =
      ((runWarn (warnHandle ws e).1 es).1,
        (warnHandle ws e).2 ++ (runWarn (warnHandle ws e).1 es).2) := rfl

theorem warnHandle_low_true {ws : String → Bool} {mid : String} (hw : ws mid = true) :
    warnHandle ws (EventT.lowStockWarning mid) = (ws, []) := by
  simp [warnHandle, hw]

theorem warnHandle_low_false {ws : String → Bool} {mid : String} (hw : ws mid = false) :
    warnHandle ws (EventT.lowStockWarning mid) =
      (fun x => if x = mid then true else ws x, [Report.warned mid]) := by
  simp [warnHandle, hw]

theorem warnHandle_ok_true {ws : String → Bool} {mid : String} (hw : ws mid = true) :
    warnHandle ws (EventT.stockLevelOk mid) =
      (fun x => if x = mid then false else ws x, [Report.cleared mid]) := by
  simp [warnHandle, hw]

theorem warnHandle_ok_false {ws : String → Bool} {mid : String} (hw : ws mid = false) :
    warnHandle ws (EventT.stockLevelOk mid) = (ws, []) := by
  simp [warnHandle, hw]

/-- Reports concerning one device strictly alternate, starting opposite to the
device's current warned flag. -/
theorem runWarn_alternates (d : String) :
    ∀ (es : List EventT) (ws : String → Bool),
      List.Chain (· ≠ ·) (ws d) (reportBools d (runWarn ws es).2) := by
  intro es
  induction es with
  | nil => intro ws; exact List.Chain.nil
  | cons e es ih =>
    intro ws
    cases e with
    | sale sold mid =>
      rw [runWarn_cons]
      simpa [warnHandle] using ih ws
    | refill qty mid =>
      rw [runWarn_cons]
      simpa [warnHandle] using ih ws
    | lowStockWarning mid =>
      rcases boolSplit (ws mid) with hw | hw
      · by_cases hmd : mid = d
        · subst hmd
          rw [runWarn_cons, warnHandle_low_false hw, reportBools_append]
          simp only [reportBools, if_pos rfl, List.nil_append]
          refine List.Chain.cons ?_ ?_
          · rw [hw]
            simp
          · have h2 := ih (fun x => if x = mid then true else ws x)
            simpa using h2
        · rw [runWarn_cons, warnHandle_low_false hw, reportBools_append]
          simp only [reportBools, if_neg hmd, List.nil_append]
          have hdm : ¬ d = mid := fun hc => hmd hc.symm
          have h2 := ih (fun x => if x = mid then true else ws x)
          simpa [hdm] using h2
      · rw [runWarn_cons, warnHandle_low_true hw]
        simpa using ih ws
    | stockLevelOk mid =>
      rcases boolSplit (ws mid) with hw | hw
      · rw [runWarn_cons, warnHandle_ok_false hw]
        simpa using ih ws
      · by_cases hmd : mid = d
        · subst hmd
          rw [runWarn_cons, warnHandle_ok_true hw, reportBools_append]
          simp only [reportBools, if_pos rfl, List.nil_append]
          refine List.Chain.cons ?_ ?_
          · rw [hw]
            simp
          · have h2 := ih (fun x => if x = mid then false else ws x)
            simpa using h2
        · rw [runWarn_cons, warnHandle_ok_true hw, reportBools_append]
          simp only [reportBools, if_neg hmd, List.nil_append]
          have hdm : ¬ d = mid := fun hc => hmd hc.symm
          have h2 := ih (fun x => if x = mid then false else ws x)
          simpa [hdm] using h2



/-!
## Lemmas about the sale handler
-/

theorem findMachine_updateStock (ms : List Machine) (mid : String) (lvl : Int) :
    findMachine (updateStock ms mid lvl) mid =
      (findMachine ms mid).map (fun m => { m with stockLevel := lvl }) := by
  induction ms with
  | nil => rfl
  | cons m rest ih =>
    by_cases h : m.id = mid
    · simp [updateStock, findMachine, h]
    · simp [updateStock, findMachine, h, ih]

theorem setAdd_setAdd {S : Type} [DecidableEq S] (l : List (Option S)) (h : S) :
    setAdd (setAdd l h) h = setAdd l h :=
  setAdd_of_mem (mem_setAdd_self l h)

/-- The round trip `subscribe` then `unsubscribe` of a pair that was not
subscribed: the kind's entry list regains its live members, plus one empty
slot where the added entry was tombstoned. -/
theorem roundTrip_eq {S : Type} [DecidableEq S] {st : PState S} {t : String} {h : S}
    (hm : some h ∉ entriesOf st t) :
    (st.subscribe t h).unsubscribe t h =
      { st with subscribers := mapSet st.subscribers t (entriesOf st t ++ [none]) } := by
  rw [subscribe_eq]
  unfold PState.unsubscribe
  simp only [mapGet_mapSet_self]
  rw [setAdd_of_not_mem hm, setDelete_append_last hm, mapSet_mapSet]

/-- C5: `subscribe` is idempotent — subscribing the same subscriber identity
twice to the same kind leaves the registry in exactly the state one
`subscribe` produces (so, in particular, a matching event is delivered to
that subscriber exactly once, as the concrete double-subscription run
shows: one `invoked` entry in the trace). -/
theorem claim5_subscribe_idempotent :
    (∀ (S : Type) [DecidableEq S] (st : PState S) (t : String) (h : S),
        (st.subscribe t h).subscribe t h = st.subscribe t h) ∧
    (publish noopU 5 (((emptyPS Unit).subscribe "sale" ()).subscribe "sale" ()) ()
        (EventT.sale 1 "001")).trace.count (TraceEnt.invoked () 0 (EventT.sale 1 "001")) = 1 := by
  constructor
  · intro S inst st t h
    rw [subscribe_eq, subscribe_eq]
    simp [entriesOf, mapGet_mapSet_self, setAdd_setAdd, mapSet_mapSet]
  · decide

/-- C6 (amended): for a pair that is not currently subscribed, `subscribe`
then `unsubscribe` restores the registry up to observational equivalence —
same queue, flag and counter, and for every kind the same ordered live
membership (the deleted entry leaves only an empty slot, and a kind holding
only empty slots is observably an absent kind) — and a second `unsubscribe`
of the same pair is a silent exact no-op. -/
theorem claim6_round_trip :
    ∀ (S : Type) [DecidableEq S] (st : PState S) (t : String) (h : S),
      some h ∉ entriesOf st t →
      RegObsEquiv ((st.subscribe t h).unsubscribe t h) st ∧
      ((st.subscribe t h).unsubscribe t h).unsubscribe t h =
        (st.subscribe t h).unsubscribe t h := by
  intro S inst st t h hm
  constructor
  · rw [roundTrip_eq hm]
    refine ⟨rfl, rfl, rfl, ?_⟩
    intro u
    by_cases hu : u = t
    · subst hu
      simp [obsOf, entriesOf, mapGet_mapSet_self]
    · simp [obsOf, entriesOf, mapGet_mapSet_ne _ hu]
  · rw [roundTrip_eq hm]
    apply unsubscribe_not_mem
    simpa [entriesOf, mapGet_mapSet_self] using hm

/-- C6 witness: concrete instance of the amended round-trip theorem, with the
hypothesis (the pair is not currently subscribed) discharged by computation. -/
theorem claim6_round_trip_witness :
    (some CSub.b ∉ entriesOf oneSubPS "sale") ∧
    RegObsEquiv ((oneSubPS.subscribe "sale" CSub.b).unsubscribe "sale" CSub.b) oneSubPS ∧
    ((oneSubPS.subscribe "sale" CSub.b).unsubscribe "sale" CSub.b).unsubscribe "sale" CSub.b =
      (oneSubPS.subscribe "sale" CSub.b).unsubscribe "sale" CSub.b :=
  ⟨by decide, (claim6_round_trip CSub oneSubPS "sale" CSub.b (by decide)).1,
    (claim6_round_trip CSub oneSubPS "sale" CSub.b (by decide)).2⟩

/-- C6 counterexample: for a subscriber that is *already* subscribed, the
round trip does not restore the prior state in every observable respect —
the subscriber loses its membership, and a publish that delivered to it
before the round trip delivers to nobody after it. -/
theorem claim6_round_trip_cex :
    CSub.a ∈ obsOf oneSubPS "sale" ∧
    CSub.a ∉ obsOf ((oneSubPS.subscribe "sale" CSub.a).unsubscribe "sale" CSub.a) "sale" ∧
    (publish noopC 5 oneSubPS () (EventT.sale 1 "001")).trace =
      [TraceEnt.popped 0 (EventT.sale 1 "001"),
        TraceEnt.invoked CSub.a 0 (EventT.sale 1 "001")] ∧
    (publish noopC 5 ((oneSubPS.subscribe "sale" CSub.a).unsubscribe "sale" CSub.a) ()
        (EventT.sale 1 "001")).trace = [TraceEnt.popped 0 (EventT.sale 1 "001")] := by
  decide

/-- C7: the stock-warning tracker reports at most once per consecutive run —
for any event sequence the reports concerning a device strictly alternate
(warning, cleared, warning, …), starting opposite to the device's current
warned flag, so a second warning report requires an intervening stock-ok
report (which only a stock-ok event for that device produces); and the
self-transitions of the per-device two-state machine are exact no-ops. -/
theorem claim7_warning_alternation :
    (∀ (d : String) (ws : String → Bool) (es : List EventT),
        List.Chain (· ≠ ·) (ws d) (reportBools d (runWarn ws es).2)) ∧
    (∀ (ws : String → Bool) (mid : String), ws mid = true →
        warnHandle ws (EventT.lowStockWarning mid) = (ws, [])) ∧
    (∀ (ws : String → Bool) (mid : String), ws mid = false →
        warnHandle ws (EventT.stockLevelOk mid) = (ws, [])) :=
  ⟨fun d ws es => runWarn_alternates d es ws,
    fun _ _ hw => warnHandle_low_true hw,
    fun _ _ hw => warnHandle_ok_false hw⟩

/-- C7 witness: the alternation and both self-transition no-ops at concrete
inputs, with the flag hypotheses discharged by computation. -/
theorem claim7_warning_alternation_witness :
    ((fun _ : String => true) "001" = true) ∧
    warnHandle (fun _ : String => true) (EventT.lowStockWarning "001") =
      ((fun _ : String => true), []) ∧
    ((fun _ : String => false) "001" = false) ∧
    warnHandle (fun _ : String => false) (EventT.stockLevelOk "001") =
      ((fun _ : String => false), []) ∧
    List.Chain (· ≠ ·) ((fun _ : String => false) "001")
      (reportBools "001" (runWarn (fun _ : String => false)
        [EventT.lowStockWarning "001", EventT.lowStockWarning "001",
          EventT.stockLevelOk "001"]).2) :=
  ⟨rfl, claim7_warning_alternation.2.1 (fun _ => true) "001" rfl, rfl,
    claim7_warning_alternation.2.2 (fun _ => false) "001" rfl,
    claim7_warning_alternation.1 "001" (fun _ => false) _⟩

/-- C9: the sale handler applies no lower bound to stock — when the sold
quantity exceeds the machine's current stock, the machine is left with a
strictly negative stock level and the handler still publishes a low-stock
warning (and does not raise). -/
theorem claim9_negative_stock :
    ∀ (w : AppWorld) (sold : Int) (mid : String) (m : Machine),
      findMachine w.machines mid = some m → m.stockLevel < sold →
      findMachine (appHandle AppSub.saleSub (EventT.sale sold mid) w).1.machines mid =
          some { m with stockLevel := m.stockLevel - sold } ∧
      m.stockLevel - sold < 0 ∧
      (appHandle AppSub.saleSub (EventT.sale sold mid) w).2.1 =
          [Action.publish (EventT.lowStockWarning mid)] ∧
      (appHandle AppSub.saleSub (EventT.sale sold mid) w).2.2 = false := by
  intro w sold mid m hfind hlt
  have hneg : m.stockLevel - sold < 0 := by omega
  have hlt3 : m.stockLevel - sold < 3 := by omega
  simp only [appHandle, hfind]
  rw [if_pos hlt3]
  refine ⟨?_, hneg, rfl, rfl⟩
  simp [findMachine_updateStock, hfind]

/-- C9 witness: selling 11 from a machine holding 10 leaves stock −1 and
still emits the low-stock warning publish. -/
theorem claim9_negative_stock_witness :
    findMachine [Machine.mk "001" 10] "001" = some (Machine.mk "001" 10) ∧
    (Machine.mk "001" 10).stockLevel < 11 ∧
    (findMachine (appHandle AppSub.saleSub (EventT.sale 11 "001")
          (AppWorld.mk [Machine.mk "001" 10] (fun _ => false) [])).1.machines "001" =
        some { Machine.mk "001" 10 with
                stockLevel := (Machine.mk "001" 10).stockLevel - 11 } ∧
      (Machine.mk "001" 10).stockLevel - 11 < 0 ∧
      (appHandle AppSub.saleSub (EventT.sale 11 "001")
          (AppWorld.mk [Machine.mk "001" 10] (fun _ => false) [])).2.1 =
        [Action.publish (EventT.lowStockWarning "001")] ∧
      (appHandle AppSub.saleSub (EventT.sale 11 "001")
          (AppWorld.mk [Machine.mk "001" 10] (fun _ => false) [])).2.2 = false) :=
  ⟨by decide, by decide,
    claim9_negative_stock (AppWorld.mk [Machine.mk "001" 10] (fun _ => false) [])
      11 "001" (Machine.mk "001" 10) (by decide) (by decide)⟩

/-!
## Lemmas about the dispatcher
-/

@[simp]
theorem kind_ok {S W : Type} (st : PState S) (w : W) (tr : List (TraceEnt S)) :
    (RunResult.ok st w tr).kind = RKind.ok := rfl

@[simp]
theorem kind_exn {S W : Type} (st : PState S) (w : W) (tr : List (TraceEnt S)) :
    (RunResult.exn st w tr).kind = RKind.exn := rfl

@[simp]
theorem kind_outOfFuel {S W : Type} (st : PState S) (w : W) (tr : List (TraceEnt S)) :
    (RunResult.outOfFuel st w tr).kind = RKind.outOfFuel := rfl

@[simp]
theorem kind_nestedDrain {S W : Type} (st : PState S) (w : W) (tr : List (TraceEnt S)) :
    (RunResult.nestedDrain st w tr).kind = RKind.nestedDrain := rfl

@[simp]
theorem state_ok {S W : Type} (st : PState S) (w : W) (tr : List (TraceEnt S)) :
    (RunResult.ok st w tr).state = st := rfl

@[simp]
theorem state_exn {S W : Type} (st : PState S) (w : W) (tr : List (TraceEnt S)) :
    (RunResult.exn st w tr).state = st := rfl

@[simp]
theorem state_outOfFuel {S W : Type} (st : PState S) (w : W) (tr : List (TraceEnt S)) :
    (RunResult.outOfFuel st w tr).state = st := rfl

@[simp]
theorem state_nestedDrain {S W : Type} (st : PState S) (w : W) (tr : List (TraceEnt S)) :
    (RunResult.nestedDrain st w tr).state = st := rfl

@[simp]
theorem trace_ok {S W : Type} (st : PState S) (w : W) (tr : List (TraceEnt S)) :
    (RunResult.ok st w tr).trace = tr := rfl

@[simp]
theorem trace_exn {S W : Type} (st : PState S) (w : W) (tr : List (TraceEnt S)) :
    (RunResult.exn st w tr).trace = tr := rfl

@[simp]
theorem trace_outOfFuel {S W : Type} (st : PState S) (w : W) (tr : List (TraceEnt S)) :
    (RunResult.outOfFuel st w tr).trace = tr := rfl

@[simp]
theorem trace_nestedDrain {S W : Type} (st : PState S) (w : W) (tr : List (TraceEnt S)) :
    (RunResult.nestedDrain st w tr).trace = tr := rfl

@[simp]
theorem prependTrace_kind {S W : Type} (pre : List (TraceEnt S)) (r : RunResult S W) :
    (r.prependTrace pre).kind = r.kind := by
  cases r <;> rfl

@[simp]
theorem prependTrace_state {S W : Type} (pre : List (TraceEnt S)) (r : RunResult S W) :
    (r.prependTrace pre).state = r.state := by
  cases r <;> rfl

@[simp]
theorem prependTrace_world {S W : Type} (pre : List (TraceEnt S)) (r : RunResult S W) :
    (r.prependTrace pre).world = r.world := by
  cases r <;> rfl

@[simp]
theorem prependTrace_trace {S W : Type} (pre : List (TraceEnt S)) (r : RunResult S W) :
    (r.prependTrace pre).trace = pre ++ r.trace := by
  cases r <;> rfl

@[simp]
theorem prependTrace_nil {S W : Type} (r : RunResult S W) : r.prependTrace [] = r := by
  cases r <;> simp [RunResult.prependTrace]

@[simp]
theorem enqueue_subscribers {S : Type} (st : PState S) (e : EventT) :
    (st.enqueue e).subscribers = st.subscribers := rfl

@[simp]
theorem enqueue_eventQueue {S : Type} (st : PState S) (e : EventT) :
    (st.enqueue e).eventQueue = st.eventQueue ++ [(st.nextSeq, e)] := rfl

@[simp]
theorem enqueue_isProcessing {S : Type} (st : PState S) (e : EventT) :
    (st.enqueue e).isProcessing = st.isProcessing := rfl

@[simp]
theorem enqueue_nextSeq {S : Type} (st : PState S) (e : EventT) :
    (st.enqueue e).nextSeq = st.nextSeq + 1 := rfl

@[simp]
theorem subscribe_eventQueue {S : Type} [DecidableEq S] (st : PState S) (t : String)
    (h : S) : (st.subscribe t h).eventQueue = st.eventQueue := by
  rw [subscribe_eq]

@[simp]
theorem subscribe_isProcessing {S : Type} [DecidableEq S] (st : PState S) (t : String)
    (h : S) : (st.subscribe t h).isProcessing = st.isProcessing := by
  rw [subscribe_eq]

@[simp]
theorem subscribe_nextSeq {S : Type} [DecidableEq S] (st : PState S) (t : String)
    (h : S) : (st.subscribe t h).nextSeq = st.nextSeq := by
  rw [subscribe_eq]

@[simp]
theorem unsubscribe_eventQueue {S : Type} [DecidableEq S] (st : PState S) (t : String)
    (h : S) : (st.unsubscribe t h).eventQueue = st.eventQueue := by
  unfold PState.unsubscribe
  cases mapGet st.subscribers t <;> rfl

@[simp]
theorem unsubscribe_isProcessing {S : Type} [DecidableEq S] (st : PState S) (t : String)
    (h : S) : (st.unsubscribe t h).isProcessing = st.isProcessing := by
  unfold PState.unsubscribe
  cases mapGet st.subscribers t <;> rfl

@[simp]
theorem unsubscribe_nextSeq {S : Type} [DecidableEq S] (st : PState S) (t : String)
    (h : S) : (st.unsubscribe t h).nextSeq = st.nextSeq := by
  unfold PState.unsubscribe
  cases mapGet st.subscribers t <;> rfl

theorem extends_refl {S : Type} (st : PState S) : Extends st st :=
  ⟨rfl, le_refl _, [], by simp, by simp, List.Pairwise.nil⟩

theorem extends_trans {S : Type} {s1 s2 s3 : PState S} (h12 : Extends s1 s2)
    (h23 : Extends s2 s3) : Extends s1 s3 := by
  obtain ⟨hf12, hn12, tl1, hq1, hb1, hp1⟩ := h12
  obtain ⟨hf23, hn23, tl2, hq2, hb2, hp2⟩ := h23
  refine ⟨hf23.trans hf12, hn12.trans hn23, tl1 ++ tl2, ?_, ?_, ?_⟩
  · rw [hq2, hq1, List.append_assoc]
  · intro p hp
    rcases List.mem_append.1 hp with hmem | hmem
    · exact ⟨(hb1 p hmem).1, lt_of_lt_of_le (hb1 p hmem).2 hn23⟩
    · exact ⟨hn12.trans (hb2 p hmem).1, (hb2 p hmem).2⟩
  · rw [List.map_append]
    refine List.pairwise_append.2 ⟨hp1, hp2, ?_⟩
    intro a ha c hc
    rcases List.mem_map.1 ha with ⟨p, hpmem, rfl⟩
    rcases List.mem_map.1 hc with ⟨q, hqmem, rfl⟩
    exact lt_of_lt_of_le (hb1 p hpmem).2 (hb2 q hqmem).1

theorem extends_enqueue {S : Type} (st : PState S) (e : EventT) :
    Extends st (st.enqueue e) := by
  refine ⟨rfl, by simp, [(st.nextSeq, e)], by simp, ?_, by simp⟩
  intro p hp
  simp only [List.mem_singleton] at hp
  subst hp
  simp

theorem extends_subscribe {S : Type} [DecidableEq S] (st : PState S) (t : String)
    (h : S) : Extends st (st.subscribe t h) :=
  ⟨by simp, by simp, [], by simp, by simp, List.Pairwise.nil⟩

theorem extends_unsubscribe {S : Type} [DecidableEq S] (st : PState S) (t : String)
    (h : S) : Extends st (st.unsubscribe t h) :=
  ⟨by simp, by simp, [], by simp, by simp, List.Pairwise.nil⟩

theorem qinv_of_extends {S : Type} {st st' : PState S} (hq : QInv st)
    (he : Extends st st') : QInv st' := by
  obtain ⟨hpw, hbd⟩ := hq
  obtain ⟨hf, hn, tl, hqe, hb, hp⟩ := he
  constructor
  · rw [hqe, List.map_append]
    refine List.pairwise_append.2 ⟨hpw, hp, ?_⟩
    intro a ha c hc
    rcases List.mem_map.1 ha with ⟨p, hpmem, rfl⟩
    rcases List.mem_map.1 hc with ⟨q, hqmem, rfl⟩
    exact lt_of_lt_of_le (hbd p hpmem) (hb q hqmem).1
  · intro p hp'
    rw [hqe] at hp'
    rcases List.mem_append.1 hp' with hmem | hmem
    · exact lt_of_lt_of_le (hbd p hmem) hn
    · exact (hb p hmem).2

/-- During a drain (`isProcessing = true`) the dispatcher calls of a handler
body always return normally with no delivery of their own: registry calls
are pure updates, and a nested `publish` finds the flag set and only
enqueues — the reentrant-drain branch is not taken. -/
theorem applyActions_ok {S W : Type} [DecidableEq S] :
    ∀ (acts : List (Action S)) (st : PState S) (w : W), st.isProcessing = true →
      ∃ st', applyActions st w acts = RunResult.ok st' w [] ∧ Extends st st' := by
  intro acts
  induction acts with
  | nil => intro st w _; exact ⟨st, rfl, extends_refl st⟩
  | cons a rest ih =>
    intro st w hf
    cases a with
    | subscribe t h =>
      obtain ⟨st', heq, hext⟩ := ih (st.subscribe t h) w (by simp [hf])
      exact ⟨st', heq, extends_trans (extends_subscribe st t h) hext⟩
    | unsubscribe t h =>
      obtain ⟨st', heq, hext⟩ := ih (st.unsubscribe t h) w (by simp [hf])
      exact ⟨st', heq, extends_trans (extends_unsubscribe st t h) hext⟩
    | publish e =>
      have hf1 : (st.enqueue e).isProcessing = true := by simp [hf]
      obtain ⟨st', heq, hext⟩ := ih (st.enqueue e) w hf1
      refine ⟨st', ?_, extends_trans (extends_enqueue st e) hext⟩
      simp only [applyActions]
      rw [if_pos hf1]
      exact heq

/-- Behaviour of one delivery's `forEach` during a drain: it never reaches the
reentrant-drain branch, it only extends the state in the `Extends` sense
(flag untouched, queue appended with fresh sequence numbers), and every
trace entry it produces is an invocation for the delivered event. -/
theorem forEachSubs_spec {S W : Type} [DecidableEq S] (handle : HandlerFun S W) :
    ∀ (fuel sq : Nat) (e : EventT) (i : Nat) (st : PState S) (w : W),
      st.isProcessing = true →
      (forEachSubs handle fuel sq e i st w).kind ≠ RKind.nestedDrain ∧
      Extends st (forEachSubs handle fuel sq e i st w).state ∧
      ∀ ent ∈ (forEachSubs handle fuel sq e i st w).trace,
        ∃ s, ent = TraceEnt.invoked s sq e := by
  intro fuel
  induction fuel with
  | zero =>
    intro sq e i st w _
    refine ⟨by simp [forEachSubs, RunResult.kind], extends_refl st, ?_⟩
    intro ent hent
    simp [forEachSubs, RunResult.trace] at hent
  | succ fuel ih =>
    intro sq e i st w hf
    simp only [forEachSubs]
    split
    · split
      · exact ih sq e (i + 1) st w hf
      · rename_i s hget
        obtain ⟨st2, hA, hext⟩ :=
          applyActions_ok (handle s e w).2.1 st (handle s e w).1 hf
        rw [hA]
        simp only [RunResult.andThen, prependTrace_nil]
        by_cases hr : (handle s e w).2.2 = true
        · rw [if_pos hr]
          refine ⟨by simp [RunResult.prependTrace, RunResult.kind], ?_, ?_⟩
          · simpa [RunResult.prependTrace, RunResult.state] using hext
          · intro ent hent
            simp only [RunResult.prependTrace, RunResult.trace] at hent
            simp only [List.append_nil, List.mem_singleton] at hent
            exact ⟨s, hent⟩
        · rw [if_neg hr]
          obtain ⟨hK, hX, hT⟩ := ih sq e (i + 1) st2 (handle s e w).1 (hext.1.trans hf)
          refine ⟨by simpa using hK, ?_, ?_⟩
          · simpa using extends_trans hext hX
          · intro ent hent
            simp only [prependTrace_trace, List.singleton_append, List.mem_cons] at hent
            rcases hent with hent | hent
            · exact ⟨s, hent⟩
            · exact hT ent hent
    · exact ⟨by simp [RunResult.kind], extends_refl st,
        by intro ent hent; simp [RunResult.trace] at hent⟩

/-- From a state with the drain flag set, the drain loop never reaches the
reentrant-drain branch, and if it ends in a propagating exception the flag
is still set in the final state (the source has no `try`/`finally`). -/
theorem drainLoop_guard {S W : Type} [DecidableEq S] (handle : HandlerFun S W) :
    ∀ (fuel : Nat) (st : PState S) (w : W), st.isProcessing = true →
      (drainLoop handle fuel st w).kind ≠ RKind.nestedDrain ∧
      ((drainLoop handle fuel st w).kind = RKind.exn →
        (drainLoop handle fuel st w).state.isProcessing = true) := by
  intro fuel
  induction fuel with
  | zero =>
    intro st w hf
    exact ⟨by simp [drainLoop, RunResult.kind], by simp [drainLoop, RunResult.kind]⟩
  | succ fuel ih =>
    intro st w hf
    simp only [drainLoop]
    split
    · exact ⟨by simp [RunResult.kind], by simp [RunResult.kind]⟩
    · rename_i sq e rest heq
      split
      · obtain ⟨hK, hE⟩ := ih { st with eventQueue := rest } w hf
        exact ⟨by simpa using hK, by simpa using hE⟩
      · rename_i l hsub
        cases hF : forEachSubs handle fuel sq e 0 { st with eventQueue := rest } w with
        | ok st2 w2 trF =>
          have hspec := forEachSubs_spec handle fuel sq e 0
            { st with eventQueue := rest } w hf
          rw [hF] at hspec
          have hf2 : st2.isProcessing = true := hspec.2.1.1.trans hf
          obtain ⟨hK, hE⟩ := ih st2 w2 hf2
          simp only [RunResult.andThen]
          exact ⟨by simpa using hK, by simpa using hE⟩
        | exn st2 w2 trF =>
          have hspec := forEachSubs_spec handle fuel sq e 0
            { st with eventQueue := rest } w hf
          rw [hF] at hspec
          have hf2 : st2.isProcessing = true := hspec.2.1.1.trans hf
          simp only [RunResult.andThen]
          exact ⟨by simp, fun _ => by simpa using hf2⟩
        | outOfFuel st2 w2 trF =>
          simp only [RunResult.andThen]
          exact ⟨by simp, by simp⟩
        | nestedDrain st2 w2 trF =>
          have hspec := forEachSubs_spec handle fuel sq e 0
            { st with eventQueue := rest } w hf
          rw [hF] at hspec
          exact absurd rfl hspec.1

theorem eq_ok_of_prependTrace {S W : Type} {p : List (TraceEnt S)} {r : RunResult S W}
    {st' : PState S} {w' : W} {tr : List (TraceEnt S)}
    (h : r.prependTrace p = RunResult.ok st' w' tr) :
    ∃ tr0, r = RunResult.ok st' w' tr0 := by
  cases r with
  | ok st0 w0 tr0 =>
    simp only [RunResult.prependTrace, RunResult.ok.injEq] at h
    exact ⟨tr0, by rw [h.1, h.2.1]⟩
  | exn st0 w0 tr0 => simp [RunResult.prependTrace] at h
  | outOfFuel st0 w0 tr0 => simp [RunResult.prependTrace] at h
  | nestedDrain st0 w0 tr0 => simp [RunResult.prependTrace] at h

/-- A normal return of the drain loop means the queue was emptied and the
drain flag cleared. -/
theorem drainLoop_ok {S W : Type} [DecidableEq S] (handle : HandlerFun S W) :
    ∀ (fuel : Nat) (st : PState S) (w : W) (st' : PState S) (w' : W)
      (tr : List (TraceEnt S)), drainLoop handle fuel st w = RunResult.ok st' w' tr →
      st'.eventQueue = [] ∧ st'.isProcessing = false := by
  intro fuel
  induction fuel with
  | zero =>
    intro st w st' w' tr h
    simp [drainLoop] at h
  | succ fuel ih =>
    intro st w st' w' tr h
    simp only [drainLoop] at h
    revert h
    split
    · intro h
      rename_i hqe
      simp only [RunResult.ok.injEq] at h
      rw [← h.1]
      exact ⟨hqe, rfl⟩
    · rename_i sq e rest heq
      split
      · intro h
        obtain ⟨tr0, h0⟩ := eq_ok_of_prependTrace h
        exact ih _ _ _ _ _ h0
      · intro h
        obtain ⟨tr0, h0⟩ := eq_ok_of_prependTrace h
        revert h0
        cases hF : forEachSubs handle fuel sq e 0 { st with eventQueue := rest } w with
        | ok st2 w2 trF =>
          intro h0
          simp only [RunResult.andThen] at h0
          obtain ⟨tr1, h1⟩ := eq_ok_of_prependTrace h0
          exact ih _ _ _ _ _ h1
        | exn st2 w2 trF => intro h0; simp [RunResult.andThen] at h0
        | outOfFuel st2 w2 trF => intro h0; simp [RunResult.andThen] at h0
        | nestedDrain st2 w2 trF => intro h0; simp [RunResult.andThen] at h0

@[simp]
theorem seqOf_popped {S : Type} (sq : Nat) (e : EventT) :
    seqOf (TraceEnt.popped (S := S) sq e) = sq := rfl

@[simp]
theorem seqOf_invoked {S : Type} (s : S) (sq : Nat) (e : EventT) :
    seqOf (TraceEnt.invoked s sq e) = sq := rfl

@[simp]
theorem traceSeqs_nil {S : Type} : traceSeqs (S := S) [] = [] := rfl

@[simp]
theorem traceSeqs_cons {S : Type} (x : TraceEnt S) (tr : List (TraceEnt S)) :
    traceSeqs (x :: tr) = seqOf x :: traceSeqs tr := rfl

@[simp]
theorem traceSeqs_append {S : Type} (l1 l2 : List (TraceEnt S)) :
    traceSeqs (l1 ++ l2) = traceSeqs l1 ++ traceSeqs l2 := List.map_append _ _ _

@[simp]
theorem poppedSeqs_nil {S : Type} : poppedSeqs (S := S) [] = [] := rfl

@[simp]
theorem poppedSeqs_cons_popped {S : Type} (sq : Nat) (e : EventT)
    (tr : List (TraceEnt S)) :
    poppedSeqs (TraceEnt.popped sq e :: tr) = sq :: poppedSeqs tr := rfl

@[simp]
theorem poppedSeqs_cons_invoked {S : Type} (s : S) (sq : Nat) (e : EventT)
    (tr : List (TraceEnt S)) :
    poppedSeqs (TraceEnt.invoked s sq e :: tr) = poppedSeqs tr := rfl

@[simp]
theorem poppedSeqs_append {S : Type} (l1 l2 : List (TraceEnt S)) :
    poppedSeqs (l1 ++ l2) = poppedSeqs l1 ++ poppedSeqs l2 := by
  induction l1 with
  | nil => rfl
  | cons x xs ih =>
    cases x with
    | popped sq e => simp [ih]
    | invoked s sq e => simp [ih]

theorem poppedSeqs_nil_of_invoked {S : Type} {tr : List (TraceEnt S)} {sq : Nat}
    {e : EventT} (h : ∀ ent ∈ tr, ∃ s, ent = TraceEnt.invoked s sq e) :
    poppedSeqs tr = [] := by
  induction tr with
  | nil => rfl
  | cons x xs ih =>
    obtain ⟨s, rfl⟩ := h x (List.mem_cons_self _ _)
    simpa using ih (fun y hy => h y (List.mem_cons_of_mem _ hy))

theorem traceSeqs_all_eq {S : Type} {tr : List (TraceEnt S)} {sq : Nat} {e : EventT}
    (h : ∀ ent ∈ tr, ∃ s, ent = TraceEnt.invoked s sq e) :
    ∀ x ∈ traceSeqs tr, x = sq := by
  intro x hx
  rcases List.mem_map.1 hx with ⟨ent, hent, rfl⟩
  obtain ⟨s, rfl⟩ := h ent hent
  rfl

theorem pairwise_le_of_all_eq {l : List Nat} {a : Nat} (h : ∀ x ∈ l, x = a) :
    List.Pairwise (· ≤ ·) l := by
  induction l with
  | nil => exact List.Pairwise.nil
  | cons x xs ih =>
    refine List.pairwise_cons.2 ⟨?_, ih (fun y hy => h y (List.mem_cons_of_mem _ hy))⟩
    intro y hy
    rw [h x (List.mem_cons_self _ _), h y (List.mem_cons_of_mem _ hy)]

/-- The FIFO theorem for one drain: starting from a sane instrumented state
(queued sequence numbers ascending and below the counter, all of them at
least `b`), the trace's sequence numbers are non-decreasing overall and the
popped (delivered) events have strictly increasing sequence numbers, all at
least `b`. -/
theorem drainLoop_fifo {S W : Type} [DecidableEq S] (handle : HandlerFun S W) :
    ∀ (fuel : Nat) (st : PState S) (w : W) (b : Nat),
      st.isProcessing = true → QInv st →
      (∀ p ∈ st.eventQueue, b ≤ p.1) → b ≤ st.nextSeq →
      List.Pairwise (· ≤ ·) (traceSeqs (drainLoop handle fuel st w).trace) ∧
      (∀ x ∈ traceSeqs (drainLoop handle fuel st w).trace, b ≤ x) ∧
      List.Pairwise (· < ·) (poppedSeqs (drainLoop handle fuel st w).trace) ∧
      (∀ x ∈ poppedSeqs (drainLoop handle fuel st w).trace, b ≤ x) := by
  intro fuel
  induction fuel with
  | zero =>
    intro st w b _ _ _ _
    simp [drainLoop]
  | succ fuel ih =>
    intro st w b hf hq hb hbn
    simp only [drainLoop]
    split
    · simp
    · rename_i sq e rest heq
      have hmem0 : (sq, e) ∈ st.eventQueue := by
        rw [heq]
        exact List.mem_cons_self _ _
      have hbsq : b ≤ sq := hb _ hmem0
      have hsqn : sq < st.nextSeq := hq.2 _ hmem0
      have hrest : ∀ p ∈ rest, sq < p.1 := by
        intro p hp
        have hpw := hq.1
        rw [heq] at hpw
        simp only [List.map_cons] at hpw
        exact (List.pairwise_cons.1 hpw).1 p.1 (List.mem_map_of_mem _ hp)
      have hq1 : QInv { st with eventQueue := rest } := by
        constructor
        · have hpw := hq.1
          rw [heq] at hpw
          simp only [List.map_cons] at hpw
          exact (List.pairwise_cons.1 hpw).2
        · intro p hp
          exact hq.2 p (by rw [heq]; exact List.mem_cons_of_mem _ hp)
      split
      · obtain ⟨P1, P2, P3, P4⟩ :=
          ih { st with eventQueue := rest } w (sq + 1) hf hq1
            (fun p hp => hrest p hp) hsqn
        simp only [prependTrace_trace, List.singleton_append, traceSeqs_cons,
          seqOf_popped, poppedSeqs_cons_popped]
        refine ⟨?_, ?_, ?_, ?_⟩
        · refine List.pairwise_cons.2 ⟨?_, P1⟩
          intro y hy
          exact le_trans (Nat.le_succ sq) (P2 y hy)
        · intro x hx
          rcases List.mem_cons.1 hx with rfl | hx
          · exact hbsq
          · exact le_trans hbsq (le_trans (Nat.le_succ sq) (P2 x hx))
        · refine List.pairwise_cons.2 ⟨?_, P3⟩
          intro y hy
          exact lt_of_lt_of_le (Nat.lt_succ_self sq) (P4 y hy)
        · intro x hx
          rcases List.mem_cons.1 hx with rfl | hx
          · exact hbsq
          · exact le_trans hbsq (le_trans (Nat.le_succ sq) (P4 x hx))
      · rename_i l hsub
        cases hF : forEachSubs handle fuel sq e 0 { st with eventQueue := rest } w with
        | ok st2 w2 trF =>
          have hspec := forEachSubs_spec handle fuel sq e 0
            { st with eventQueue := rest } w hf
          rw [hF] at hspec
          obtain ⟨hK, hext, htrF⟩ := hspec
          simp only [state_ok] at hext
          simp only [trace_ok] at htrF
          have hf2 : st2.isProcessing = true := hext.1.trans hf
          have hq2 : QInv st2 := qinv_of_extends hq1 hext
          obtain ⟨hflag2, hnle, tl, hqe2, hbtl, hptl⟩ := hext
          have hbinds : ∀ p ∈ st2.eventQueue, sq + 1 ≤ p.1 := by
            intro p hp
            rw [hqe2] at hp
            rcases List.mem_append.1 hp with hp | hp
            · exact hrest p hp
            · exact le_trans hsqn (hbtl p hp).1
          have hble2 : sq + 1 ≤ st2.nextSeq := le_trans hsqn hnle
          obtain ⟨P1, P2, P3, P4⟩ := ih st2 w2 (sq + 1) hf2 hq2 hbinds hble2
          have hAeq : ∀ x ∈ traceSeqs trF, x = sq := traceSeqs_all_eq htrF
          have hApop : poppedSeqs trF = [] := poppedSeqs_nil_of_invoked htrF
          simp only [RunResult.andThen, prependTrace_trace, List.singleton_append,
            traceSeqs_cons, seqOf_popped, traceSeqs_append, poppedSeqs_cons_popped,
            poppedSeqs_append, hApop, List.nil_append]
          refine ⟨?_, ?_, ?_, ?_⟩
          · refine List.pairwise_cons.2 ⟨?_, ?_⟩
            · intro y hy
              rcases List.mem_append.1 hy with hy | hy
              · exact le_of_eq (hAeq y hy).symm
              · exact le_trans (Nat.le_succ sq) (P2 y hy)
            · refine List.pairwise_append.2 ⟨pairwise_le_of_all_eq hAeq, P1, ?_⟩
              intro x hx y hy
              rw [hAeq x hx]
              exact le_trans (Nat.le_succ sq) (P2 y hy)
          · intro x hx
            rcases List.mem_cons.1 hx with rfl | hx
            · exact hbsq
            · rcases List.mem_append.1 hx with hx | hx
              · rw [hAeq x hx]
                exact hbsq
              · exact le_trans hbsq (le_trans (Nat.le_succ sq) (P2 x hx))
          · refine List.pairwise_cons.2 ⟨?_, P3⟩
            intro y hy
            exact lt_of_lt_of_le (Nat.lt_succ_self sq) (P4 y hy)
          · intro x hx
            rcases List.mem_cons.1 hx with rfl | hx
            · exact hbsq
            · exact le_trans hbsq (le_trans (Nat.le_succ sq) (P4 x hx))
        | exn st2 w2 trF =>
          have hspec := forEachSubs_spec handle fuel sq e 0
            { st with eventQueue := rest } w hf
          rw [hF] at hspec
          have htrF : ∀ ent ∈ trF, ∃ s, ent = TraceEnt.invoked s sq e := by
            simpa using hspec.2.2
          have hAeq : ∀ x ∈ traceSeqs trF, x = sq := traceSeqs_all_eq htrF
          have hApop : poppedSeqs trF = [] := poppedSeqs_nil_of_invoked htrF
          simp only [RunResult.andThen, prependTrace_trace, List.singleton_append,
            trace_exn, traceSeqs_cons, seqOf_popped, poppedSeqs_cons_popped, hApop]
          refine ⟨?_, ?_, ?_, ?_⟩
          · refine List.pairwise_cons.2 ⟨?_, pairwise_le_of_all_eq hAeq⟩
            intro y hy
            exact le_of_eq (hAeq y hy).symm
          · intro x hx
            rcases List.mem_cons.1 hx with rfl | hx
            · exact hbsq
            · rw [hAeq x hx]
              exact hbsq
          · exact List.pairwise_singleton _ _
          · intro x hx
            rcases List.mem_singleton.1 hx with rfl
            exact hbsq
        | outOfFuel st2 w2 trF =>
          have hspec := forEachSubs_spec handle fuel sq e 0
            { st with eventQueue := rest } w hf
          rw [hF] at hspec
          have htrF : ∀ ent ∈ trF, ∃ s, ent = TraceEnt.invoked s sq e := by
            simpa using hspec.2.2
          have hAeq : ∀ x ∈ traceSeqs trF, x = sq := traceSeqs_all_eq htrF
          have hApop : poppedSeqs trF = [] := poppedSeqs_nil_of_invoked htrF
          simp only [RunResult.andThen, prependTrace_trace, List.singleton_append,
            trace_outOfFuel, traceSeqs_cons, seqOf_popped, poppedSeqs_cons_popped, hApop]
          refine ⟨?_, ?_, ?_, ?_⟩
          · refine List.pairwise_cons.2 ⟨?_, pairwise_le_of_all_eq hAeq⟩
            intro y hy
            exact le_of_eq (hAeq y hy).symm
          · intro x hx
            rcases List.mem_cons.1 hx with rfl | hx
            · exact hbsq
            · rw [hAeq x hx]
              exact hbsq
          · exact List.pairwise_singleton _ _
          · intro x hx
            rcases List.mem_singleton.1 hx with rfl
            exact hbsq
        | nestedDrain st2 w2 trF =>
          have hspec := forEachSubs_spec handle fuel sq e 0
            { st with eventQueue := rest } w hf
          rw [hF] at hspec
          exact absurd rfl hspec.1

/-- `publish` on a dispatcher whose drain flag is set only enqueues: it
returns at once with no delivery activity at all. -/
theorem publish_when_processing {S W : Type} [DecidableEq S] (handle : HandlerFun S W)
    (fuel : Nat) (st : PState S) (w : W) (e : EventT) (hf : st.isProcessing = true) :
    publish handle fuel st w e = RunResult.ok (st.enqueue e) w [] := by
  simp [publish, hf]

/-- `publish` on an idle dispatcher synchronously drains before returning. -/
theorem publish_when_idle {S W : Type} [DecidableEq S] (handle : HandlerFun S W)
    (fuel : Nat) (st : PState S) (w : W) (e : EventT) (hf : st.isProcessing = false) :
    publish handle fuel st w e = processEventQueue handle fuel (st.enqueue e) w := by
  simp [publish, hf]

/-- C1: global FIFO delivery — for every handler behaviour and every sanely
instrumented start state, the trace of a `publish` call has non-decreasing
ghost sequence numbers overall (each event's handler invocations sit
between its pop and the next pop) and the popped events' sequence numbers
are strictly increasing; since sequence numbers are assigned in enqueue
order, events — including events published by handlers during the active
drain, which are appended at the tail with fresh, larger numbers — are
delivered in exactly the order they were enqueued. -/
theorem claim1_global_fifo :
    ∀ (S W : Type) [DecidableEq S] (handle : HandlerFun S W) (fuel : Nat)
      (st : PState S) (w : W) (e : EventT), QInv st →
      List.Pairwise (· ≤ ·) (traceSeqs (publish handle fuel st w e).trace) ∧
      List.Pairwise (· < ·) (poppedSeqs (publish handle fuel st w e).trace) := by
  intro S W inst handle fuel st w e hq
  by_cases hf : st.isProcessing = true
  · rw [publish_when_processing handle fuel st w e hf]
    simp
  · have hf' : st.isProcessing = false := by
      cases hP : st.isProcessing
      · rfl
      · exact absurd hP hf
    rw [publish_when_idle handle fuel st w e hf']
    unfold processEventQueue
    have hq1 : QInv (st.enqueue e) := qinv_of_extends hq (extends_enqueue st e)
    have hq2 : QInv { st.enqueue e with isProcessing := true } := hq1
    obtain ⟨P1, _, P3, _⟩ := drainLoop_fifo handle fuel
      { st.enqueue e with isProcessing := true } w 0 rfl hq2
      (fun p _ => Nat.zero_le _) (Nat.zero_le _)
    exact ⟨P1, P3⟩

/-- C1 witness: the FIFO theorem applied to the wired system publishing a
sale that cascades into a nested low-stock publish. -/
theorem claim1_global_fifo_witness :
    QInv initPS ∧
    (List.Pairwise (· ≤ ·) (traceSeqs (publish appHandle 20 initPS initW
        (EventT.sale 8 "001")).trace) ∧
      List.Pairwise (· < ·) (poppedSeqs (publish appHandle 20 initPS initW
        (EventT.sale 8 "001")).trace)) :=
  have hq : QInv initPS :=
    ⟨List.Pairwise.nil, by intro p hp; simp [initPS, emptyPS] at hp⟩
  ⟨hq,
    claim1_global_fifo AppSub AppWorld appHandle 20 initPS initW
      (EventT.sale 8 "001") hq⟩

/-- C4: at most one drain is ever active — a publish made while the drain
flag is set (as every publish made from inside a handler is) only appends
to the queue and returns at once with an empty delivery trace; a publish
made while the flag is clear synchronously runs the drain; and no drain
cycle ever reaches the reentrant-drain branch of a nested publish. -/
theorem claim4_single_drain :
    ∀ (S W : Type) [DecidableEq S] (handle : HandlerFun S W) (fuel : Nat)
      (st : PState S) (w : W) (e : EventT),
      (st.isProcessing = true →
        publish handle fuel st w e = RunResult.ok (st.enqueue e) w []) ∧
      (st.isProcessing = false →
        publish handle fuel st w e = processEventQueue handle fuel (st.enqueue e) w) ∧
      (processEventQueue handle fuel st w).kind ≠ RKind.nestedDrain := by
  intro S W inst handle fuel st w e
  refine ⟨publish_when_processing handle fuel st w e,
    publish_when_idle handle fuel st w e, ?_⟩
  unfold processEventQueue
  exact (drainLoop_guard handle fuel { st with isProcessing := true } w rfl).1

/-- C4 witness: both flag hypotheses discharged at concrete states. -/
theorem claim4_single_drain_witness :
    (twoSubsPS.isProcessing = false) ∧
    (publish noopC 5 twoSubsPS () (EventT.sale 1 "001") =
      processEventQueue noopC 5 (twoSubsPS.enqueue (EventT.sale 1 "001")) ()) ∧
    ({ twoSubsPS with isProcessing := true }.isProcessing = true) ∧
    (publish noopC 5 { twoSubsPS with isProcessing := true } () (EventT.sale 1 "001") =
      RunResult.ok ({ twoSubsPS with isProcessing := true }.enqueue (EventT.sale 1 "001"))
        () []) :=
  ⟨rfl,
    (claim4_single_drain CSub Unit noopC 5 twoSubsPS () (EventT.sale 1 "001")).2.1 rfl,
    rfl,
    (claim4_single_drain CSub Unit noopC 5 { twoSubsPS with isProcessing := true } ()
      (EventT.sale 1 "001")).1 rfl⟩

/-- C10: a top-level publish (made while no drain is active) that returns
normally leaves the pending queue empty and the drain flag clear,
regardless of how many cascading events handlers published. -/
theorem claim10_idle_after_publish :
    ∀ (S W : Type) [DecidableEq S] (handle : HandlerFun S W) (fuel : Nat)
      (st : PState S) (w : W) (e : EventT) (st' : PState S) (w' : W)
      (tr : List (TraceEnt S)),
      st.isProcessing = false →
      publish handle fuel st w e = RunResult.ok st' w' tr →
      st'.eventQueue = [] ∧ st'.isProcessing = false := by
  intro S W inst handle fuel st w e st' w' tr hf hok
  rw [publish_when_idle handle fuel st w e hf] at hok
  unfold processEventQueue at hok
  exact drainLoop_ok handle fuel _ _ _ _ _ hok

/-- C10 witness: a concrete normally returning top-level publish, with both
hypotheses discharged by computation. -/
theorem claim10_idle_after_publish_witness :
    (unitSubPS.isProcessing = false) ∧
    (publish noopU 5 unitSubPS () (EventT.sale 1 "001") =
      RunResult.ok (PState.mk [("sale", [some ()])] [] false 1) ()
        [TraceEnt.popped 0 (EventT.sale 1 "001"),
          TraceEnt.invoked () 0 (EventT.sale 1 "001")]) ∧
    ((PState.mk [("sale", [some ()])] [] false 1 : PState Unit).eventQueue = [] ∧
      (PState.mk [("sale", [some ()])] [] false 1 : PState Unit).isProcessing = false) :=
  ⟨rfl, by decide,
    claim10_idle_after_publish Unit Unit noopU 5 unitSubPS () (EventT.sale 1 "001")
      (PState.mk [("sale", [some ()])] [] false 1) ()
      [TraceEnt.popped 0 (EventT.sale 1 "001"),
        TraceEnt.invoked () 0 (EventT.sale 1 "001")] rfl (by decide)⟩

/-- C3 (amended): a handler exception propagates out of the `publish` call
abandoning the rest of the drain cycle with the still-queued events
pending, but the drain flag is left set (no `try`/`finally` in the
source), so every subsequent publish only enqueues and never delivers —
the dispatcher is left permanently unable to drain. -/
theorem claim3_exception_stuck :
    ∀ (S W : Type) [DecidableEq S] (handle : HandlerFun S W) (fuel : Nat)
      (st : PState S) (w : W) (e : EventT),
      (∀ (st' : PState S) (w' : W) (tr : List (TraceEnt S)),
        publish handle fuel st w e = RunResult.exn st' w' tr →
        st'.isProcessing = true) ∧
      (st.isProcessing = true →
        publish handle fuel st w e = RunResult.ok (st.enqueue e) w []) := by
  intro S W inst handle fuel st w e
  constructor
  · intro st' w' tr hexn
    by_cases hf : st.isProcessing = true
    · rw [publish_when_processing handle fuel st w e hf] at hexn
      simp at hexn
    · have hf' : st.isProcessing = false := by
        cases hP : st.isProcessing
        · rfl
        · exact absurd hP hf
      rw [publish_when_idle handle fuel st w e hf'] at hexn
      unfold processEventQueue at hexn
      have hguard := (drainLoop_guard handle fuel
        { st.enqueue e with isProcessing := true } w rfl).2
      rw [hexn] at hguard
      simpa using hguard rfl
  · exact publish_when_processing handle fuel st w e

/-- C3 witness: a concrete throwing run (the exception hypothesis discharged
by computing the exact `exn` result) and a concrete flag-set publish. -/
theorem claim3_exception_stuck_witness :
    (publish throwHandle 10 oneSubPS () (EventT.sale 1 "001") =
      RunResult.exn
        (PState.mk [("sale", [some CSub.a])] [(1, EventT.refill 1 "002")] true 2) ()
        [TraceEnt.popped 0 (EventT.sale 1 "001"),
          TraceEnt.invoked CSub.a 0 (EventT.sale 1 "001")]) ∧
    (PState.mk [("sale", [some CSub.a])] [(1, EventT.refill 1 "002")] true 2
        : PState CSub).isProcessing = true ∧
    ({ oneSubPS with isProcessing := true }.isProcessing = true) ∧
    (publish throwHandle 10 { oneSubPS with isProcessing := true } ()
        (EventT.sale 1 "003") =
      RunResult.ok ({ oneSubPS with isProcessing := true }.enqueue (EventT.sale 1 "003"))
        () []) :=
  ⟨by decide,
    (claim3_exception_stuck CSub Unit throwHandle 10 oneSubPS ()
        (EventT.sale 1 "001")).1
      (PState.mk [("sale", [some CSub.a])] [(1, EventT.refill 1 "002")] true 2) ()
      [TraceEnt.popped 0 (EventT.sale 1 "001"),
        TraceEnt.invoked CSub.a 0 (EventT.sale 1 "001")] (by decide),
    rfl,
    (claim3_exception_stuck CSub Unit throwHandle 10
        { oneSubPS with isProcessing := true } () (EventT.sale 1 "003")).2 rfl⟩

/-- C3 counterexample: the handler raises after publishing a refill event;
the exception propagates leaving that event queued, and the next publish
call delivers nothing (empty trace: nothing popped, no handler invoked)
and leaves both events queued — it does not resume draining. -/
theorem claim3_cex :
    (publish throwHandle 10 oneSubPS () (EventT.sale 1 "001")).kind = RKind.exn ∧
    (publish throwHandle 10 oneSubPS () (EventT.sale 1 "001")).state.eventQueue =
      [(1, EventT.refill 1 "002")] ∧
    (publish throwHandle 10
        (publish throwHandle 10 oneSubPS () (EventT.sale 1 "001")).state ()
        (EventT.sale 1 "003")).trace = [] ∧
    (publish throwHandle 10
        (publish throwHandle 10 oneSubPS () (EventT.sale 1 "001")).state ()
        (EventT.sale 1 "003")).state.eventQueue =
      [(1, EventT.refill 1 "002"), (2, EventT.sale 1 "003")] := by
  decide

/-- C2 counterexample: `b` is registered for the kind when delivery of the
event begins and `a`'s handler unsubscribes `b` during that same delivery;
`b` does not receive the event — the iteration works on the live set, not
on a snapshot taken at invocation time. -/
theorem claim2_cex :
    (publish unsubHandle 10 twoSubsPS () (EventT.sale 1 "001")).trace =
      [TraceEnt.popped 0 (EventT.sale 1 "001"),
        TraceEnt.invoked CSub.a 0 (EventT.sale 1 "001")] ∧
    TraceEnt.invoked CSub.b 0 (EventT.sale 1 "001") ∉
      (publish unsubHandle 10 twoSubsPS () (EventT.sale 1 "001")).trace := by
  decide

/-- C2 (amended): delivery iterates the live subscriber set rather than a
snapshot: an unsubscribe performed by an earlier handler during delivery
of event `E` removes a not-yet-visited subscriber from `E`'s own delivery
(and from subsequent events), and a subscribe performed during delivery of
`E` adds the new subscriber to `E`'s own delivery. -/
theorem claim2_live_set :
    ((publish unsubHandle 10 twoSubsPS () (EventT.sale 1 "001")).trace =
      [TraceEnt.popped 0 (EventT.sale 1 "001"),
        TraceEnt.invoked CSub.a 0 (EventT.sale 1 "001")]) ∧
    ((publish unsubHandle 10
        (publish unsubHandle 10 twoSubsPS () (EventT.sale 1 "001")).state ()
        (EventT.sale 2 "002")).trace =
      [TraceEnt.popped 1 (EventT.sale 2 "002"),
        TraceEnt.invoked CSub.a 1 (EventT.sale 2 "002")]) ∧
    ((publish addHandle 10 twoSubsPS () (EventT.sale 1 "001")).trace =
      [TraceEnt.popped 0 (EventT.sale 1 "001"),
        TraceEnt.invoked CSub.a 0 (EventT.sale 1 "001"),
        TraceEnt.invoked CSub.b 0 (EventT.sale 1 "001"),
        TraceEnt.invoked CSub.c 0 (EventT.sale 1 "001")]) := by
  decide

/-- C8: the specified three-machine scenario — a sale of 8 for device
`"001"` leaves it at stock 2, delivers the cascaded low-stock event and
produces exactly one warning report; the following sale of 1 (stock 1)
produces no second warning; the refill of 5 (stock 6) publishes a
stock-ok event producing exactly one cleared report. -/
theorem claim8_scenario :
    c8Run1.kind = RKind.ok ∧
    c8Run1.world.machines =
      [Machine.mk "001" 2, Machine.mk "002" 10, Machine.mk "003" 10] ∧
    c8Run1.world.reports = [Report.warned "001"] ∧
    c8Run1.trace =
      [TraceEnt.popped 0 (EventT.sale 8 "001"),
        TraceEnt.invoked AppSub.saleSub 0 (EventT.sale 8 "001"),
        TraceEnt.popped 1 (EventT.lowStockWarning "001"),
        TraceEnt.invoked AppSub.warnSub 1 (EventT.lowStockWarning "001")] ∧
    c8Run2.kind = RKind.ok ∧
    c8Run2.world.machines =
      [Machine.mk "001" 1, Machine.mk "002" 10, Machine.mk "003" 10] ∧
    c8Run2.world.reports = [Report.warned "001"] ∧
    c8Run3.kind = RKind.ok ∧
    c8Run3.world.machines =
      [Machine.mk "001" 6, Machine.mk "002" 10, Machine.mk "003" 10] ∧
    c8Run3.world.reports = [Report.warned "001", Report.cleared "001"] := by
  decide

end PubSub
